import Mathlib

/-!
Shallow embedding of the multi-tenant routing core of `py_pos`
(`src/config/multitenant.py` and `src/modules/tenant/schema.py`).

Python strings are modelled as `List Char`; functions that may return
`None` return `Option`; the `HTTPException` outcomes of the session
resolver become an explicit error type; the central database is a list
of tenant rows; the engine cache is an association list paired with a
construction counter, so that "how many pools were constructed" and
"which pool a caller received" are visible in the model.
-/

/-- Python strings, modelled as lists of characters. -/
abbrev Str := List Char

/-- Python's `s.split(sep)` for a one-character separator: cuts at every
occurrence of `sep`, keeps empty pieces, and never returns an empty list
(`"".split(sep) == [""]`). -/
def splitOnChar (sep : Char) : Str → List Str
  | [] => [[]]
  | c :: cs =>
    if c = sep then [] :: splitOnChar sep cs
    else
      match splitOnChar sep cs with
      | [] => [[c]]
      | g :: gs => (c :: g) :: gs

/-- Python's `s.endswith(t)`: `t` is a suffix of `s`. -/
def pyEndsWith (s t : Str) : Bool := t.isSuffixOf s

/-- `extract_subdomain_from_host` from `src/config/multitenant.py` lines
24-56: drop everything from the first `:` (`host.split(":")[0]`), test
`host_no_port.endswith(main_domain)`, split on `.`, require at least 2
labels when `main_domain` is the literal `localhost` and 3 otherwise, and
return the first label (`parts[0]`, here `headD` since a split is never
empty). -/
def extract_subdomain_from_host (host : Str) (main_domain : Str) : Option Str :=
  let host_no_port := (splitOnChar ':' host).headD []
  if pyEndsWith host_no_port main_domain then
    let parts := splitOnChar '.' host_no_port
    let min_parts : Nat := if main_domain = "localhost".data then 2 else 3
    if min_parts ≤ parts.length then some (parts.headD []) else none
  else none

/-- The Subdomain Extractor as §4.1 of the spec words it: strip any
trailing `:port` from the header, return none unless the remaining host
ends with the base domain, count the `.`-labels against a minimum of 2
for the literal `localhost` and 3 otherwise, and return the first label. -/
def extract_subdomain_spec (host : Str) (base_domain : Str) : Option Str :=
  let h := host.takeWhile (fun c => c ≠ ':')
  if pyEndsWith h base_domain then
    if (if base_domain = "localhost".data then 2 else 3) ≤ (splitOnChar '.' h).length then
      some (h.takeWhile (fun c => c ≠ '.'))
    else none
  else none

theorem splitOnChar_ne_nil (sep : Char) (s : Str) : splitOnChar sep s ≠ [] := by
  cases s with
  | nil => simp [splitOnChar]
  | cons c cs =>
    simp only [splitOnChar]
    split
    · simp
    · split <;> simp

/-- The head of a character split is the longest separator-free prefix:
`s.split(sep)[0] == s` up to the first `sep`. -/
theorem splitOnChar_headD (sep : Char) (s : Str) :
    (splitOnChar sep s).headD [] = s.takeWhile (fun c => c ≠ sep) := by
  induction s with
  | nil => rfl
  | cons c cs ih =>
    by_cases h : c = sep
    · subst h
      simp [splitOnChar, List.takeWhile_cons]
    · rcases hsplit : splitOnChar sep cs with _ | ⟨g, gs⟩
      · exact absurd hsplit (splitOnChar_ne_nil sep cs)
      · rw [hsplit] at ih
        simp only [List.headD_cons] at ih
        simp [splitOnChar, h, hsplit, List.takeWhile_cons, ih]

/-- C1: the subdomain extractor is a pure function that strips the
trailing `:port`, requires the remaining host to end with the base
domain, and returns the first `.`-label when the label count reaches the
minimum (2 for the literal `localhost`, 3 otherwise); in particular the
four quoted examples of §8 hold. -/
theorem extract_subdomain_from_host_correct :
    (∀ host dom, extract_subdomain_from_host host dom = extract_subdomain_spec host dom) ∧
    extract_subdomain_from_host "acme.example.com".data "example.com".data
      = some "acme".data ∧
    extract_subdomain_from_host "example.com".data "example.com".data = none ∧
    extract_subdomain_from_host "acme.localhost:8000".data "localhost".data
      = some "acme".data ∧
    extract_subdomain_from_host "localhost:8000".data "localhost".data = none := by
  refine ⟨fun host dom => ?_, by decide, by decide, by decide, by decide⟩
  simp only [extract_subdomain_from_host, extract_subdomain_spec, splitOnChar_headD]

/-- The `active` status literal of the `tenants` table. -/
def activeStr : Str := "active".data

/-- A row of the central `tenants` table, restricted to the columns the
routing core reads: `subdomain`, `db_url`, `status`, `name`. -/
structure TenantRow where
  subdomain : Str
  db_url : Str
  status : Str
  name : Str
  deriving DecidableEq

/-- `SELECT ... FROM tenants WHERE subdomain = :subdomain` followed by
`.first()`: the first row whose subdomain matches exactly. -/
def findTenant (db : List TenantRow) (sub : Str) : Option TenantRow :=
  db.find? (fun r => r.subdomain = sub)

/-- `get_tenant_db_url` from `src/config/multitenant.py` lines 59-84,
with its logging side effect made visible: the Bool component is true
exactly when the `logger.warning` for an inactive tenant runs. No row,
or a row whose status is not `active`, gives `none`; an active row gives
its `db_url`. -/
def get_tenant_db_url_logged (db : List TenantRow) (sub : Str) : Option Str × Bool :=
  match findTenant db sub with
  | none => (none, false)
  | some r => if r.status = activeStr then (some r.db_url, false) else (none, true)

/-- The value `get_tenant_db_url` returns to its caller (the log is not
part of it). -/
def get_tenant_db_url (db : List TenantRow) (sub : Str) : Option Str :=
  (get_tenant_db_url_logged db sub).1

/-- `get_current_tenant_info`'s central query (lines 190-204): the first
row matching the subdomain with status `active`, projected to
`(subdomain, db_url, name)`. -/
def find_active_tenant_info (db : List TenantRow) (sub : Str) : Option (Str × Str × Str) :=
  (db.find? (fun r => r.subdomain = sub ∧ r.status = activeStr)).map
    (fun r => (r.subdomain, r.db_url, r.name))

/-- The HTTP failure kinds of `get_tenant_session`: 400 for a missing
subdomain, 404 for an unknown or inactive tenant. -/
inductive ResolutionError where
  | MissingSubdomain
  | TenantNotFound
  deriving DecidableEq

/-- The resolution path of `get_tenant_session` (lines 124-163) up to
engine acquisition: extract a subdomain from the host with base domain
`localhost`; the Python test `if not subdomain` raises 400 on `None` and
on the empty string alike; `get_tenant_db_url` runs against the central
database; `if not db_url` raises 404 on `None` and on an empty URL
alike; otherwise the tenant's connection URL goes on to the cache. -/
def get_tenant_session_route (host : Str) (db : List TenantRow) :
    Except ResolutionError Str :=
  match extract_subdomain_from_host host "localhost".data with
  | none => Except.error ResolutionError.MissingSubdomain
  | some sub =>
    if sub = [] then Except.error ResolutionError.MissingSubdomain
    else
      match get_tenant_db_url db sub with
      | none => Except.error ResolutionError.TenantNotFound
      | some url =>
        if url = [] then Except.error ResolutionError.TenantNotFound
        else Except.ok url

/-- C6: the directory lookup returns `none` both when no row matches and
when the matching row is not `active`; the two cases return the same
value, the inactive one additionally logs a warning, and neither is an
error. -/
theorem get_tenant_db_url_inactive_hidden :
    ∀ (db : List TenantRow) (sub : Str),
      (findTenant db sub = none → get_tenant_db_url_logged db sub = (none, false)) ∧
      (∀ r, findTenant db sub = some r → r.status ≠ activeStr →
        get_tenant_db_url_logged db sub = (none, true)) ∧
      (get_tenant_db_url db sub = none ↔
        findTenant db sub = none ∨
          ∃ r, findTenant db sub = some r ∧ r.status ≠ activeStr) := by
  intro db sub
  refine ⟨fun h => ?_, fun r h hs => ?_, ?_⟩
  · simp [get_tenant_db_url_logged, h]
  · simp [get_tenant_db_url_logged, h, hs]
  · unfold get_tenant_db_url get_tenant_db_url_logged
    rcases h : findTenant db sub with _ | r
    · simp
    · by_cases hs : r.status = activeStr <;> simp [hs]

/-- When the first row matching a subdomain is active it is also the
first row matching the subdomain together with status `active`. -/
theorem findTenant_first_active (sub : Str) (r : TenantRow) :
    ∀ db : List TenantRow, findTenant db sub = some r → r.status = activeStr →
      db.find? (fun x => x.subdomain = sub ∧ x.status = activeStr) = some r := by
  intro db
  induction db with
  | nil => intro h _; simp [findTenant] at h
  | cons d ds ih =>
    intro hfind hactive
    by_cases hd : d.subdomain = sub
    · have hdr : d = r := by
        unfold findTenant at hfind
        simpa [hd] using hfind
      subst hdr
      simp [hd, hactive]
    · unfold findTenant at hfind
      rw [List.find?_cons_of_neg _ (by simp [hd])] at hfind
      rw [List.find?_cons_of_neg _ (by simp [hd])]
      exact ih hfind hactive

/-- Two directories that differ only in the tenant's display name. -/
def rowAcmeA : TenantRow :=
  ⟨"acme".data, "postgresql://db/acme".data, activeStr, "Acme Inc".data⟩

/-- The same row under another display name. -/
def rowAcmeB : TenantRow :=
  ⟨"acme".data, "postgresql://db/acme".data, activeStr, "Other Name".data⟩

/-- C7 counterexample: the resolver's directory lookup returns the same
value over two directories that differ only in the display name, so the
value it returns cannot contain the display name — it is only the
connection target. -/
theorem get_tenant_db_url_drops_name :
    get_tenant_db_url [rowAcmeA] "acme".data = get_tenant_db_url [rowAcmeB] "acme".data ∧
    rowAcmeA.name ≠ rowAcmeB.name ∧
    get_tenant_db_url [rowAcmeA] "acme".data = some "postgresql://db/acme".data := by
  refine ⟨by decide, by decide, by decide⟩

/-- C7 amended: for a subdomain whose first matching row is `active`, the
resolver's directory lookup returns the tenant's connection target (and
only that); the display name is returned by the separate
`get_current_tenant_info` query, together with the subdomain and the
connection target. -/
theorem get_tenant_db_url_active (db : List TenantRow) (sub : Str) (r : TenantRow)
    (hfind : findTenant db sub = some r) (hactive : r.status = activeStr) :
    get_tenant_db_url db sub = some r.db_url ∧
    find_active_tenant_info db sub = some (r.subdomain, r.db_url, r.name) := by
  refine ⟨?_, ?_⟩
  · simp [get_tenant_db_url, get_tenant_db_url_logged, hfind, hactive]
  · unfold find_active_tenant_info
    rw [findTenant_first_active sub r db hfind hactive]
    rfl

/-- C7 witness: the amended claim at a one-row directory. -/
theorem get_tenant_db_url_active_witness :
    get_tenant_db_url [rowAcmeA] "acme".data = some "postgresql://db/acme".data ∧
    find_active_tenant_info [rowAcmeA] "acme".data =
      some ("acme".data, "postgresql://db/acme".data, "Acme Inc".data) :=
  get_tenant_db_url_active [rowAcmeA] "acme".data rowAcmeA (by decide) (by decide)

/-- A tenant row whose stored connection URL is the empty string. -/
def rowEmptyUrl : TenantRow := ⟨"acme".data, [], activeStr, "Acme".data⟩

/-- C2 counterexample: the resolver's failure kinds do not track "the
extraction returned none" and "the lookup returned none" exactly. For
host `.localhost` the extraction returns the empty subdomain, not none,
yet the resolver fails with `MissingSubdomain`; for host `acme.localhost`
over a directory whose active row stores an empty connection URL, the
lookup returns an empty string, not none, yet the resolver fails with
`TenantNotFound`. -/
theorem get_tenant_session_route_truthiness :
    (extract_subdomain_from_host ".localhost".data "localhost".data = some [] ∧
      get_tenant_session_route ".localhost".data [] =
        Except.error ResolutionError.MissingSubdomain) ∧
    (extract_subdomain_from_host "acme.localhost".data "localhost".data
        = some "acme".data ∧
      get_tenant_db_url [rowEmptyUrl] "acme".data = some [] ∧
      get_tenant_session_route "acme.localhost".data [rowEmptyUrl] =
        Except.error ResolutionError.TenantNotFound) := by
  refine ⟨⟨by decide, by rfl⟩, by decide, by decide, by rfl⟩

/-- C2 amended: the resolver fails with `MissingSubdomain` exactly when
extraction returns none or the empty subdomain, and with `TenantNotFound`
exactly when extraction returns a nonempty subdomain whose directory
lookup returns none or an empty connection URL; the two kinds are
distinct and no other failure exists. -/
theorem get_tenant_session_route_error_kinds (host : Str) (db : List TenantRow) :
    (get_tenant_session_route host db = Except.error ResolutionError.MissingSubdomain ↔
      extract_subdomain_from_host host "localhost".data = none ∨
      extract_subdomain_from_host host "localhost".data = some []) ∧
    (get_tenant_session_route host db = Except.error ResolutionError.TenantNotFound ↔
      ∃ sub, extract_subdomain_from_host host "localhost".data = some sub ∧ sub ≠ [] ∧
        (get_tenant_db_url db sub = none ∨ get_tenant_db_url db sub = some [])) ∧
    ResolutionError.MissingSubdomain ≠ ResolutionError.TenantNotFound := by
  unfold get_tenant_session_route
  rcases hx : extract_subdomain_from_host host "localhost".data with _ | sub
  · simp
  · by_cases hsub : sub = []
    · subst hsub
      simp
    · simp only [if_neg hsub]
      rcases hu : get_tenant_db_url db sub with _ | url
      · simp [hsub, hu]
      · by_cases hurl : url = []
        · subst hurl
          simp [hsub, hu]
        · simp [hsub, hu, hurl]

/-- Lifecycle flags of one tenant session. -/
structure SessionSt where
  committed : Bool
  rolledBack : Bool
  closed : Bool
  deriving DecidableEq

/-- A step of session code: it may change the lifecycle flags and either
return a value or raise an exception of type `ε`. -/
def SessionM (ε α : Type) : Type := SessionSt → SessionSt × Except ε α

/-- Plain return. -/
def pureS {ε α : Type} (a : α) : SessionM ε α := fun s => (s, Except.ok a)

/-- Sequencing: a raised exception skips the rest. -/
def bindS {ε α β : Type} (m : SessionM ε α) (f : α → SessionM ε β) : SessionM ε β :=
  fun s =>
    match m s with
    | (s1, Except.ok a) => f a s1
    | (s1, Except.error e) => (s1, Except.error e)

/-- `await session.commit()`. -/
def commitS {ε : Type} : SessionM ε Unit :=
  fun s => (⟨true, s.rolledBack, s.closed⟩, Except.ok ())

/-- `except Exception: await session.rollback(); raise`: on an exception
the session is rolled back and the same exception is re-raised. -/
def rollbackReraiseS {ε α : Type} (m : SessionM ε α) : SessionM ε α :=
  fun s =>
    match m s with
    | (s1, Except.ok a) => (s1, Except.ok a)
    | (s1, Except.error e) => (⟨s1.committed, true, s1.closed⟩, Except.error e)

/-- `finally: await session.close()`: runs on both outcomes. -/
def closeFinallyS {ε α : Type} (m : SessionM ε α) : SessionM ε α :=
  fun s =>
    match m s with
    | (s1, r) => (⟨s1.committed, s1.rolledBack, true⟩, r)

/-- The caller's use of the yielded session, abstracted to its outcome;
the caller does not itself commit, roll back or close. -/
def callerS {ε α : Type} (body : Except ε α) : SessionM ε α := fun s => (s, body)

/-- Lines 166-174 of `src/config/multitenant.py`: `try: yield session;
await session.commit()` / `except Exception: await session.rollback();
raise` / `finally: await session.close()`. -/
def tenant_session_scope {ε α : Type} (body : Except ε α) : SessionM ε α :=
  closeFinallyS
    (rollbackReraiseS (bindS (callerS body) (fun a => bindS commitS (fun _ => pureS a))))

/-- A freshly opened session: not committed, not rolled back, not closed. -/
def freshSession : SessionSt := ⟨false, false, false⟩

/-- C3: over a fresh tenant session, a successful use commits and does
not roll back, a raising use rolls back, does not commit and re-raises
the same exception, and both outcomes close the session before control
returns. -/
theorem tenant_session_scope_lifecycle {ε α : Type} (body : Except ε α) :
    tenant_session_scope body freshSession =
      match body with
      | Except.ok a => (⟨true, false, true⟩, Except.ok a)
      | Except.error e => (⟨false, true, true⟩, Except.error e) := by
  cases body <;> rfl

/-- The engine cache: the `tenant_engines` association together with a
construction counter. A constructed engine+sessionmaker pair is
identified by its construction number, so `nextId` counts the calls to
`create_async_engine`. -/
structure EngineCache where
  cache : List (Str × Nat)
  nextId : Nat
  deriving DecidableEq

/-- `db_url in tenant_engines` / `tenant_engines[db_url]`. -/
def lookupCache (c : List (Str × Nat)) (k : Str) : Option Nat :=
  (c.find? (fun p => p.1 = k)).map (fun p => p.2)

/-- `get_or_create_tenant_engine` (lines 87-121), whose body runs under
`tenant_engines_lock`: return the cached entry when `db_url` is already
a key; otherwise construct a new engine and sessionmaker, store the pair
under `db_url` and return it. -/
def get_or_create_tenant_engine (s : EngineCache) (db_url : Str) : EngineCache × Nat :=
  match lookupCache s.cache db_url with
  | some h => (s, h)
  | none => (⟨(db_url, s.nextId) :: s.cache, s.nextId + 1⟩, s.nextId)

/-- `n` further sequential calls for the same URL, collecting the
returned handles. -/
def runGetOrCreate (s : EngineCache) (db_url : Str) : Nat → EngineCache × List Nat
  | 0 => (s, [])
  | n + 1 =>
    let c1 := get_or_create_tenant_engine s db_url
    let c2 := runGetOrCreate c1.1 db_url n
    (c2.1, c1.2 :: c2.2)

/-- A call leaves its own URL cached with the handle it returned. -/
theorem get_or_create_tenant_engine_lookup (s : EngineCache) (db_url : Str) :
    lookupCache (get_or_create_tenant_engine s db_url).1.cache db_url
      = some (get_or_create_tenant_engine s db_url).2 := by
  unfold get_or_create_tenant_engine
  rcases h : lookupCache s.cache db_url with _ | hval
  · simp [lookupCache]
  · simp [h]

/-- A hit returns the cached handle and leaves the state unchanged. -/
theorem get_or_create_tenant_engine_hit (s : EngineCache) (db_url : Str) (h : Nat)
    (hh : lookupCache s.cache db_url = some h) :
    get_or_create_tenant_engine s db_url = (s, h) := by
  unfold get_or_create_tenant_engine
  rw [hh]

/-- C5: a hit returns the existing handle and constructs nothing (the
state, counter included, is unchanged), and after a first call every one
of `n` further sequential calls for the same URL returns the first
call's handle and leaves the cache untouched. -/
theorem get_or_create_tenant_engine_idempotent :
    (∀ (s : EngineCache) (db_url : Str) (h : Nat),
      lookupCache s.cache db_url = some h →
        get_or_create_tenant_engine s db_url = (s, h)) ∧
    (∀ (s : EngineCache) (db_url : Str) (n : Nat),
      runGetOrCreate (get_or_create_tenant_engine s db_url).1 db_url n
        = ((get_or_create_tenant_engine s db_url).1,
            List.replicate n (get_or_create_tenant_engine s db_url).2)) := by
  constructor
  · exact get_or_create_tenant_engine_hit
  · intro s db_url n
    induction n with
    | zero => rfl
    | succ n ih =>
      have hstep :=
        get_or_create_tenant_engine_hit (get_or_create_tenant_engine s db_url).1 db_url
          (get_or_create_tenant_engine s db_url).2
          (get_or_create_tenant_engine_lookup s db_url)
      simp only [runGetOrCreate, hstep, ih, List.replicate]

/-- Apply `get_or_create_tenant_engine` for each URL of a list in turn. -/
def runTargets (s : EngineCache) : List Str → EngineCache
  | [] => s
  | t :: ts => runTargets (get_or_create_tenant_engine s t).1 ts

/-- One call never removes or replaces an existing entry. -/
theorem get_or_create_tenant_engine_preserves (s : EngineCache) (t k : Str) (h : Nat)
    (hk : lookupCache s.cache k = some h) :
    lookupCache (get_or_create_tenant_engine s t).1.cache k = some h := by
  unfold get_or_create_tenant_engine
  rcases hm : lookupCache s.cache t with _ | hval
  · have hne : ¬t = k := by
      intro he
      subst he
      rw [hm] at hk
      exact Option.noConfusion hk
    simpa [lookupCache, hne] using hk
  · simpa using hk

/-- C8: the cache only grows — under any further sequence of
`get_or_create_tenant_engine` calls, a URL once mapped to a handle stays
mapped to that same handle (no TTL, no eviction, no replacement). -/
theorem tenant_engines_cache_grows (s : EngineCache) (ops : List Str) (k : Str) (h : Nat)
    (hk : lookupCache s.cache k = some h) :
    lookupCache (runTargets s ops).cache k = some h := by
  induction ops generalizing s with
  | nil => exact hk
  | cons t ts ih =>
    exact ih _ (get_or_create_tenant_engine_preserves s t k h hk)

/-- C8 witness: a cached URL survives two further calls, one of them for
a different URL. -/
theorem tenant_engines_cache_grows_witness :
    lookupCache (runTargets ⟨[("u".data, 0)], 1⟩ ["v".data, "u".data]).cache "u".data
      = some 0 :=
  tenant_engines_cache_grows ⟨[("u".data, 0)], 1⟩ ["v".data, "u".data] "u".data 0 (by decide)

/-- The shared state of `K` concurrent first-time callers of
`get_or_create_tenant_engine` for one target URL. Per the source the
whole check-create sequence runs inside `with tenant_engines_lock`, so a
caller is at one of four points: before the `with` (counted by
`nStart`), holding the lock before the cache test (`nLocked`), holding
the lock after a miss and before `create_async_engine` plus the store
(`nCreating`), or finished. Callers of the same target are
interchangeable, so the state keeps their counts and the returned
handles; `nextId` counts engine constructions. -/
structure ConcState where
  lockHeld : Bool
  cache : List (Str × Nat)
  nextId : Nat
  nStart : Nat
  nLocked : Nat
  nCreating : Nat
  results : List Nat
  deriving DecidableEq

/-- One instruction of one caller, interleaved with the others: the lock
can only be taken when free, the cache test happens under the lock, and
a miss constructs and stores a new engine before the lock is released. -/
inductive ConcStep (tgt : Str) : ConcState → ConcState → Prop where
  | acquire (s : ConcState) (h : 0 < s.nStart) (hl : s.lockHeld = false) :
      ConcStep tgt s
        ⟨true, s.cache, s.nextId, s.nStart - 1, s.nLocked + 1, s.nCreating, s.results⟩
  | checkHit (s : ConcState) (hval : Nat) (hd : 0 < s.nLocked)
      (hh : lookupCache s.cache tgt = some hval) :
      ConcStep tgt s
        ⟨false, s.cache, s.nextId, s.nStart, s.nLocked - 1, s.nCreating,
          hval :: s.results⟩
  | checkMiss (s : ConcState) (hd : 0 < s.nLocked)
      (hh : lookupCache s.cache tgt = none) :
      ConcStep tgt s
        ⟨true, s.cache, s.nextId, s.nStart, s.nLocked - 1, s.nCreating + 1, s.results⟩
  | create (s : ConcState) (hd : 0 < s.nCreating) :
      ConcStep tgt s
        ⟨false, (tgt, s.nextId) :: s.cache, s.nextId + 1, s.nStart, s.nLocked,
          s.nCreating - 1, s.nextId :: s.results⟩

/-- `K` callers about to make their first-time call: empty cache, no
constructions yet, lock free. -/
def initConc (K : Nat) : ConcState := ⟨false, [], 0, K, 0, 0, []⟩

/-- The inductive invariant: callers are conserved, at most one holds
the lock (and the lock bit says whether one does), and the cache is
either still empty with nothing constructed and no results, or holds
exactly the one handle `0`, with one construction done, nobody left in
the construction section, and every result equal to that handle. -/
def ConcInv (tgt : Str) (K : Nat) (s : ConcState) : Prop :=
  s.nStart + s.nLocked + s.nCreating + s.results.length = K ∧
  s.nLocked + s.nCreating ≤ 1 ∧
  (s.lockHeld = true ↔ s.nLocked + s.nCreating = 1) ∧
  ((s.cache = [] ∧ s.nextId = 0 ∧ s.results = []) ∨
    (s.cache = [(tgt, 0)] ∧ s.nextId = 1 ∧ s.nCreating = 0 ∧ ∀ r ∈ s.results, r = 0))

theorem concInv_init (tgt : Str) (K : Nat) : ConcInv tgt K (initConc K) := by
  refine ⟨by simp [initConc], by simp [initConc], by simp [initConc], Or.inl ?_⟩
  exact ⟨rfl, rfl, rfl⟩

theorem concStep_inv {tgt : Str} {K : Nat} {s s2 : ConcState}
    (hinv : ConcInv tgt K s) (hstep : ConcStep tgt s s2) : ConcInv tgt K s2 := by
  obtain ⟨hcount, hcrit, hlock, hbranch⟩ := hinv
  cases hstep with
  | acquire h hl =>
    have hz : s.nLocked + s.nCreating = 0 := by
      rcases Nat.lt_or_ge (s.nLocked + s.nCreating) 1 with hlt | hge
      · omega
      · exact absurd (hlock.mpr (by omega)) (by simp [hl])
    refine ⟨by simp; omega, by simp; omega, by simp; omega, ?_⟩
    rcases hbranch with ⟨h1, h2, h3⟩ | ⟨h1, h2, h3, h4⟩
    · exact Or.inl ⟨h1, h2, h3⟩
    · exact Or.inr ⟨h1, h2, by simpa using h3, h4⟩
  | checkHit hval hd hh =>
    rcases hbranch with ⟨h1, _, _⟩ | ⟨h1, h2, h3, h4⟩
    · rw [h1] at hh
      exact absurd hh (by simp [lookupCache])
    · have hone : s.nLocked = 1 ∧ s.nCreating = 0 := by omega
      have hv0 : hval = 0 := by
        rw [h1] at hh
        simpa [lookupCache] using hh.symm
      refine ⟨by simp; omega, by simp; omega, by simp; omega, Or.inr ?_⟩
      refine ⟨h1, h2, by simpa using h3, ?_⟩
      intro r hr
      rcases List.mem_cons.mp hr with hr0 | hrs
      · rw [hr0, hv0]
      · exact h4 r hrs
  | checkMiss hd hh =>
    have hone : s.nLocked = 1 ∧ s.nCreating = 0 := by
      rcases hbranch with _ | ⟨h1, _, _, _⟩
      · omega
      · rw [h1] at hh
        exact absurd hh (by simp [lookupCache])
    refine ⟨by simp; omega, by simp; omega, by simp; omega, ?_⟩
    rcases hbranch with ⟨h1, h2, h3⟩ | ⟨h1, _, _, _⟩
    · exact Or.inl ⟨h1, h2, h3⟩
    · rw [h1] at hh
      exact absurd hh (by simp [lookupCache])
  | create hd =>
    rcases hbranch with ⟨h1, h2, h3⟩ | ⟨_, _, h3, _⟩
    · have hone : s.nCreating = 1 ∧ s.nLocked = 0 := by omega
      refine ⟨by simp; omega, by simp; omega, by simp; omega, Or.inr ?_⟩
      refine ⟨by rw [h1, h2], by rw [h2], by simp; omega, ?_⟩
      intro r hr
      rw [h3] at hr
      rcases List.mem_cons.mp hr with hr0 | hrs
      · rw [hr0, h2]
      · exact absurd hrs (List.not_mem_nil r)
    · omega

theorem concInv_reachable {tgt : Str} {K : Nat} {s : ConcState}
    (h : Relation.ReflTransGen (ConcStep tgt) (initConc K) s) : ConcInv tgt K s := by
  induction h with
  | refl => exact concInv_init tgt K
  | tail _ hstep ih => exact concStep_inv ih hstep

/-- C4: along every interleaving of `K` concurrent first-time callers
for one target, at most one engine is ever constructed; and once every
caller has finished (with `K ≥ 1`), exactly one engine was constructed,
the target maps to that single handle, and all `K` callers received it. -/
theorem get_or_create_tenant_engine_single_construction (tgt : Str) (K : Nat)
    (s : ConcState) (hreach : Relation.ReflTransGen (ConcStep tgt) (initConc K) s) :
    s.nextId ≤ 1 ∧
    (s.nStart = 0 → s.nLocked = 0 → s.nCreating = 0 → 0 < K →
      s.nextId = 1 ∧ s.results.length = K ∧ lookupCache s.cache tgt = some 0 ∧
        ∀ r ∈ s.results, r = 0) := by
  obtain ⟨hcount, hcrit, hlock, hbranch⟩ := concInv_reachable hreach
  constructor
  · rcases hbranch with ⟨_, h0, _⟩ | ⟨_, h1, _, _⟩ <;> omega
  · intro h1 h2 h3 hK
    rcases hbranch with ⟨hc, h0, hres⟩ | ⟨hc, hid, hcr, hres⟩
    · rw [h1, h2, h3, hres] at hcount
      simp at hcount
      omega
    · refine ⟨hid, by omega, ?_, hres⟩
      rw [hc]
      simp [lookupCache]

/-- C4 witness: the single-caller trace acquire, miss, create reaches a
final state with one construction, the target cached, and the one result
equal to the cached handle. -/
theorem get_or_create_tenant_engine_single_construction_witness :
    (⟨false, [("u".data, 0)], 1, 0, 0, 0, [0]⟩ : ConcState).nextId = 1 ∧
    (⟨false, [("u".data, 0)], 1, 0, 0, 0, [0]⟩ : ConcState).results.length = 1 ∧
    lookupCache (⟨false, [("u".data, 0)], 1, 0, 0, 0, [0]⟩ : ConcState).cache "u".data
      = some 0 ∧
    ∀ r ∈ (⟨false, [("u".data, 0)], 1, 0, 0, 0, [0]⟩ : ConcState).results, r = 0 := by
  have h1 : ConcStep "u".data (initConc 1) ⟨true, [], 0, 0, 1, 0, []⟩ :=
    ConcStep.acquire (initConc 1) (by decide) rfl
  have h2 : ConcStep "u".data (⟨true, [], 0, 0, 1, 0, []⟩ : ConcState)
      ⟨true, [], 0, 0, 0, 1, []⟩ :=
    ConcStep.checkMiss ⟨true, [], 0, 0, 1, 0, []⟩ (by decide) rfl
  have h3 : ConcStep "u".data (⟨true, [], 0, 0, 0, 1, []⟩ : ConcState)
      ⟨false, [("u".data, 0)], 1, 0, 0, 0, [0]⟩ :=
    ConcStep.create ⟨true, [], 0, 0, 0, 1, []⟩ (by decide)
  have hreach : Relation.ReflTransGen (ConcStep "u".data) (initConc 1)
      (⟨false, [("u".data, 0)], 1, 0, 0, 0, [0]⟩ : ConcState) :=
    Relation.ReflTransGen.head h1 (Relation.ReflTransGen.head h2
      (Relation.ReflTransGen.head h3 Relation.ReflTransGen.refl))
  exact (get_or_create_tenant_engine_single_construction "u".data 1 _ hreach).2
    rfl rfl rfl (by decide)

/-- ASCII lowercasing: Python's `str.lower` on the character range the
subdomain pattern and the reserved set involve. -/
def asciiLowerChar (c : Char) : Char :=
  if 'A' ≤ c ∧ c ≤ 'Z' then Char.ofNat (c.toNat + 32) else c

/-- `v.lower()`. -/
def pyLower (s : Str) : Str := s.map asciiLowerChar

/-- One character of the class `[a-z0-9]`. -/
def isLowerAlnumChar (c : Char) : Bool :=
  ('a' ≤ c && c ≤ 'z') || ('0' ≤ c && c ≤ '9')

/-- The anchored pydantic pattern `[a-z0-9]+(?:-[a-z0-9]+)*` of the
`subdomain` field: the hyphen-split groups are each nonempty and
lowercase alphanumeric. -/
def matchesSubdomainPattern (s : Str) : Bool :=
  (splitOnChar '-' s).all (fun g => !g.isEmpty && g.all isLowerAlnumChar)

/-- The reserved set of `TenantCreate.validate_subdomain`. -/
def reservedSubdomains : List Str :=
  ["www".data, "api".data, "admin".data, "app".data, "mail".data, "ftp".data,
    "localhost".data]

/-- `TenantCreate`'s subdomain validation (`src/modules/tenant/schema.py`
lines 8-27): the field's `min_length=3`, `max_length=100` and pattern
constraints run first, then `validate_subdomain` rejects a value whose
lowercase form is in the reserved set and stores `v.lower()`; `none`
models a pydantic `ValidationError`. -/
def tenantCreateSubdomain (s : Str) : Option Str :=
  if 3 ≤ s.length ∧ s.length ≤ 100 ∧ matchesSubdomainPattern s then
    if pyLower s ∈ reservedSubdomains then none else some (pyLower s)
  else none

theorem splitOnChar_cons_sep (sep : Char) (cs : Str) :
    splitOnChar sep (sep :: cs) = [] :: splitOnChar sep cs := by
  simp [splitOnChar]

theorem splitOnChar_cons_ne (sep c : Char) (cs : Str) (h : ¬c = sep) (g : Str)
    (gs : List Str) (hs : splitOnChar sep cs = g :: gs) :
    splitOnChar sep (c :: cs) = (c :: g) :: gs := by
  simp [splitOnChar, h, hs]

/-- Every character of a string is the separator or lies in one of the
split groups. -/
theorem mem_splitOnChar (sep : Char) (s : Str) :
    ∀ c ∈ s, c = sep ∨ ∃ g ∈ splitOnChar sep s, c ∈ g := by
  induction s with
  | nil => intro c hc; exact absurd hc (List.not_mem_nil c)
  | cons d ds ih =>
    intro c hc
    by_cases hd : d = sep
    · subst hd
      rcases List.mem_cons.mp hc with hcd | hcs
      · exact Or.inl hcd
      · rcases ih c hcs with h | ⟨g, hg, hcg⟩
        · exact Or.inl h
        · exact Or.inr ⟨g, by rw [splitOnChar_cons_sep]; exact List.mem_cons_of_mem _ hg, hcg⟩
    · rcases hsplit : splitOnChar sep ds with _ | ⟨g, gs⟩
      · exact absurd hsplit (splitOnChar_ne_nil sep ds)
      · rcases List.mem_cons.mp hc with hcd | hcs
        · subst hcd
          refine Or.inr ⟨c :: g, ?_, List.mem_cons_self c g⟩
          rw [splitOnChar_cons_ne sep c ds hd g gs hsplit]
          exact List.mem_cons_self _ _
        · rcases ih c hcs with h | ⟨g2, hg2, hcg2⟩
          · exact Or.inl h
          · rw [hsplit] at hg2
            rw [splitOnChar_cons_ne sep d ds hd g gs hsplit]
            rcases List.mem_cons.mp hg2 with hgg | hgs
            · subst hgg
              exact Or.inr ⟨d :: g2, List.mem_cons_self _ _, List.mem_cons_of_mem d hcg2⟩
            · exact Or.inr ⟨g2, List.mem_cons_of_mem _ hgs, hcg2⟩

/-- A string matching the pattern consists of hyphens and lowercase
alphanumerics only. -/
theorem matchesSubdomainPattern_chars {s : Str} (h : matchesSubdomainPattern s = true) :
    ∀ c ∈ s, c = '-' ∨ isLowerAlnumChar c = true := by
  intro c hc
  rcases mem_splitOnChar '-' s c hc with h1 | ⟨g, hg, hcg⟩
  · exact Or.inl h1
  · right
    unfold matchesSubdomainPattern at h
    have hgall := (List.all_eq_true.mp h) g hg
    rw [Bool.and_eq_true] at hgall
    exact (List.all_eq_true.mp hgall.2) c hcg

/-- Hyphens and lowercase alphanumerics are fixed by lowercasing. -/
theorem asciiLowerChar_fixed {c : Char} (h : c = '-' ∨ isLowerAlnumChar c = true) :
    asciiLowerChar c = c := by
  have hno : ¬('A' ≤ c ∧ c ≤ 'Z') := by
    rcases h with h | h
    · subst h; decide
    · have h3 : ('a' ≤ c ∧ c ≤ 'z') ∨ ('0' ≤ c ∧ c ≤ '9') := by
        unfold isLowerAlnumChar at h
        rw [Bool.or_eq_true, Bool.and_eq_true, Bool.and_eq_true] at h
        rcases h with ⟨h2a, h2b⟩ | ⟨h2a, h2b⟩
        · exact Or.inl ⟨of_decide_eq_true h2a, of_decide_eq_true h2b⟩
        · exact Or.inr ⟨of_decide_eq_true h2a, of_decide_eq_true h2b⟩
      intro hAZ
      rcases h3 with ⟨ha, _⟩ | ⟨_, hb⟩
      · exact absurd (le_trans ha hAZ.2) (by decide)
      · exact absurd (le_trans hAZ.1 hb) (by decide)
  unfold asciiLowerChar
  exact if_neg hno

/-- A string matching the pattern is already lowercase. -/
theorem pyLower_fixed {s : Str} (h : matchesSubdomainPattern s = true) :
    pyLower s = s := by
  unfold pyLower
  have hchars := matchesSubdomainPattern_chars h
  have : s.map asciiLowerChar = s.map id :=
    List.map_congr_left (fun c hc => asciiLowerChar_fixed (hchars c hc))
  rw [this, List.map_id]

/-- C9: `TenantCreate` rejects every subdomain whose lowercase form is
in the reserved set, whatever case it was submitted in, and every
subdomain it accepts is lowercase (equal to its own lowercase form) and
matches `[a-z0-9]+(-[a-z0-9]+)*`. -/
theorem tenantCreateSubdomain_reserved_and_shape :
    (∀ s : Str, pyLower s ∈ reservedSubdomains → tenantCreateSubdomain s = none) ∧
    (∀ s t : Str, tenantCreateSubdomain s = some t →
      t = pyLower t ∧ matchesSubdomainPattern t = true) := by
  constructor
  · intro s hmem
    unfold tenantCreateSubdomain
    by_cases hg : 3 ≤ s.length ∧ s.length ≤ 100 ∧ matchesSubdomainPattern s
    · rw [if_pos hg, if_pos hmem]
    · rw [if_neg hg]
  · intro s t hsome
    unfold tenantCreateSubdomain at hsome
    by_cases hg : 3 ≤ s.length ∧ s.length ≤ 100 ∧ matchesSubdomainPattern s
    · rw [if_pos hg] at hsome
      by_cases hmem : pyLower s ∈ reservedSubdomains
      · rw [if_pos hmem] at hsome
        exact absurd hsome (by simp)
      · rw [if_neg hmem] at hsome
        have ht : pyLower s = t := Option.some_inj.mp hsome
        have hfix := pyLower_fixed hg.2.2
        rw [hfix] at ht
        subst ht
        exact ⟨hfix.symm, hg.2.2⟩
    · rw [if_neg hg] at hsome
      exact absurd hsome (by simp)

/-- C10: the base-domain test is a raw string suffix test with no label
boundary: `a.evilexample.com` is not under `example.com` (it is neither
the domain itself nor ends in `.example.com`), yet a subdomain `a` is
extracted. -/
theorem extract_subdomain_no_label_boundary :
    extract_subdomain_from_host "a.evilexample.com".data "example.com".data
      = some "a".data ∧
    pyEndsWith "a.evilexample.com".data ('.' :: "example.com".data) = false ∧
    "a.evilexample.com".data ≠ "example.com".data := by
  refine ⟨by decide, by decide, by decide⟩
